import Mathlib

/-!
Verification development for the chess-trivia repository.

The embedding below translates the two core subsystems of the source:

* the question-generation engine (`src/app/api/questions/route.ts`):
  `generateWrongAnswers`, `shuffleWithCorrect`, `formatNumber` and the
  guarded question rules built from them;
* the live round engine (the game page component): the phase state
  machine, `handleChatMessage` scoring, streak resets at the end of the
  open phase, and the leaderboard projection.

Modelling conventions:
* JS numbers that only ever hold integers are `Int` (or `Nat` for
  indices); timestamps are `Int` milliseconds, as `Date.now()` yields;
  the fractional time-ratio computation is carried out in exact integer
  arithmetic, with a bridge lemma to the rational formula of the source.
* `Math.random()`-driven draws are modelled by an explicit draw stream
  `Nat → Nat` (the value `Math.floor(Math.random() * (2v))`), and the
  unbounded `while` loop by a fuel-indexed run function `gwaRun` that
  records the state after a given number of samples.
* The random permutation produced by `sort(() => Math.random() - 0.5)`
  is modelled by passing the permuted list explicitly; theorems
  quantify over every list that is a permutation of the unshuffled one.
* `Math.round x` is `⌊x + 1/2⌋`, which agrees with JS for every real.
-/

namespace ChessTrivia

/-- A generated multiple-choice question (interface `Question`). -/
structure Question where
  id : Nat
  question : String
  options : List String
  correctIndex : Nat
deriving Repr, DecidableEq

/-! ### DistractorGenerator: `generateWrongAnswers` -/

/-- Default variance `Math.max(Math.floor(correct * 0.3), 50)`.
For positive `correct`, `Math.floor(correct * 0.3) = (3 * correct) / 10`
in integer division. -/
def defaultVariance (correct : Int) : Int :=
  max ((3 * correct) / 10) 50

/-- One iteration of the `while` loop body of `generateWrongAnswers`:
given the raw draw `r = Math.floor(Math.random() * v * 2)`, the offset is
`r - v` and the candidate `correct + offset` is appended when it is
distinct from `correct`, positive, and not already collected. -/
def gwaStep (correct : Int) (v : Int) (acc : List Int) (r : Nat) : List Int :=
  let offset : Int := (r : Int) - v
  let candidate := correct + offset
  if candidate ≠ correct ∧ candidate > 0 ∧ candidate ∉ acc then
    acc ++ [candidate]
  else
    acc

/-- State of the `generateWrongAnswers` loop after consuming the first
`n` draws of the stream `draws`, for target list length `count`.
The source loop has no retry ceiling; `gwaRun` makes the number of
samples explicit so that termination can be discussed. -/
def gwaRun (correct : Int) (count : Nat) (v : Int) (draws : Nat → Nat) : Nat → List Int
  | 0 => []
  | n + 1 =>
    let acc := gwaRun correct count v draws n
    if count ≤ acc.length then acc else gwaStep correct v acc (draws n)

/-! ### DistractorGenerator: `shuffleWithCorrect` and `formatNumber` -/

/-- Result record of `shuffleWithCorrect`. -/
structure ShuffleResult where
  options : List String
  correctIndex : Nat
deriving Repr, DecidableEq

/-- `shuffleWithCorrect(correct, wrong)` concatenates `[correct, ...wrong]`,
permutes it with a random-comparator sort, and returns the permuted list
together with `indexOf(correct)`.  The permutation chosen by the sort is
passed in explicitly as `shuffled`; theorems quantify over all
permutations of `correct :: wrong`. -/
def shuffleWithCorrect (correct : String) (shuffled : List String) : ShuffleResult :=
  { options := shuffled, correctIndex := shuffled.indexOf correct }

/-- The un-shuffled option list `[correct, ...wrong]` of `shuffleWithCorrect`. -/
def allOptions (correct : String) (wrong : List String) : List String :=
  correct :: wrong

/-- `(num / scale).toFixed(1)` with the trailing `.0` stripped and the
suffix appended, in exact rational arithmetic: `tenths` is
`num / scale` rounded half-up to one decimal.  (At an exact tie the
source computes `toFixed` on a binary double, which may round either
way; no theorem below evaluates the formatter at a tie.) -/
def formatScaled (num scale : Int) (suffix : String) : String :=
  let tenths := (num * 20 + scale) / (2 * scale)
  if tenths % 10 = 0 then
    toString (tenths / 10) ++ suffix
  else
    toString (tenths / 10) ++ "." ++ toString (tenths % 10) ++ suffix

/-- `formatNumber`: abbreviates values ≥ 1,000,000 as `X.XM`, values
≥ 1,000 as `X.Xk`, and prints the integer otherwise. -/
def formatNumber (num : Int) : String :=
  if num ≥ 1000000 then formatScaled num 1000000 "M"
  else if num ≥ 1000 then formatScaled num 1000 "k"
  else toString num

/-! ### QuestionBuilder rules used by the claims -/

/-- The "Total blitz games" rule of the question builder: fires when the
blitz record is present and `win + loss + draw > 100`; the correct value
and the three generated wrong values all pass through `formatNumber`
before being shuffled into options.  `shuffled` is the permutation
chosen by the random sort inside `shuffleWithCorrect`; theorems relate it
to the output of `generateWrongAnswers(total, 3)` by a `Perm`
hypothesis. -/
def totalBlitzGamesQuestion (name : String) (qid : Nat) (win loss draw : Int)
    (shuffled : List String) : Option Question :=
  let total := win + loss + draw
  if total > 100 then
    let res := shuffleWithCorrect (formatNumber total) shuffled
    some { id := qid,
           question := "How many blitz games has " ++ name ++ " played on Chess.com?",
           options := res.options,
           correctIndex := res.correctIndex }
  else
    none

/-- The verified-streamer rule: fires whenever `profile.is_streamer` is
defined (`!== undefined`); the true answer is always placed first and
`correctIndex` is the literal `0` — this rule does not shuffle. -/
def isStreamerQuestion (name : String) (qid : Nat) (is_streamer : Option Bool) :
    Option Question :=
  match is_streamer with
  | none => none
  | some b =>
    let correct := if b then "Yes" else "No"
    let wrong := if b then "No" else "Yes"
    some { id := qid,
           question := "Is " ++ name ++ " a verified Chess.com streamer?",
           options := [correct, wrong],
           correctIndex := 0 }

/-! ### RoundEngine / ScoreLedger (the game page component) -/

/-- `GameState` values of the game page (`loading` and `ready` are the
pre-round states; `question` with `showOptions = true` is the open
phase). -/
inductive Phase
  | loading | ready | countdown | preview | question | reveal | finished
deriving Repr, DecidableEq

/-- One ledger entry (interface `PlayerScore`).  `lastAnswerTime` is a
`Date.now()` value, an integer number of milliseconds. -/
structure PlayerScore where
  username : String
  score : Int
  streak : Nat
  lastAnswerTime : Int
deriving Repr, DecidableEq

/-- Timing constants (seconds). -/
def COUNTDOWN_TIME : Int := 10
def QUESTION_PREVIEW_TIME : Int := 5
def ANSWER_TIME : Int := 15
def REVEAL_TIME : Int := 10

/-- Scoring constants. -/
def BASE_MAX_POINTS : Int := 500
def POINTS_INCREMENT : Int := 100
def MIN_POINTS : Int := 100
def STREAK_BONUS : Int := 100

/-- The whole mutable state of the component that the claims mention:
phase, loaded questions, current index, the per-phase countdown value,
the score ledger (in JS `Map` insertion order), the answered set for the
current question (in insertion order), whether options are visible, and
the `questionStartTimeRef` timestamp in milliseconds. -/
structure GameState where
  phase : Phase
  questions : List Question
  currentQuestionIndex : Nat
  timeLeft : Int
  scores : List PlayerScore
  answered : List String
  showOptions : Bool
  questionStartTime : Int
deriving Repr, DecidableEq

/-- `Map.get(u)`: the first (and, in a JS `Map`, only) entry keyed `u`. -/
def mapGet (l : List PlayerScore) (u : String) : Option PlayerScore :=
  l.find? (fun p => p.username == u)

/-- `Map.set(u, p)`: replace the entry keyed `u` in place, or append a
new entry (JS `Map`s keep insertion order). -/
def mapSet : List PlayerScore → String → PlayerScore → List PlayerScore
  | [], _, p => [p]
  | q :: qs, u, p => if q.username = u then p :: qs else q :: mapSet qs u p

/-- Cumulative score of a participant (0 when absent from the ledger,
matching the `|| { score: 0, ... }` default). -/
def scoreOf (s : GameState) (u : String) : Int :=
  ((mapGet s.scores u).map (fun p => p.score)).getD 0

/-- Current streak of a participant (0 when absent). -/
def streakOf (s : GameState) (u : String) : Nat :=
  ((mapGet s.scores u).map (fun p => p.streak)).getD 0

/-- `Math.round x = ⌊x + 1/2⌋` (JS rounds halves toward `+∞`). -/
def jsRound (x : ℚ) : Int :=
  ⌊x + 1 / 2⌋

/-- `Math.round (p / q)` for a positive integer denominator `q`, in
exact integer arithmetic: `⌊p / q + 1/2⌋ = (2p + q) / (2q)` with
floor (Euclidean) division.  `jsRoundDiv_eq_jsRound` below proves the
agreement with `jsRound`. -/
def jsRoundDiv (p q : Int) : Int :=
  (2 * p + q) / (2 * q)

/-- `getMaxPoints`: `BASE_MAX_POINTS + questionIndex * POINTS_INCREMENT`. -/
def getMaxPoints (questionIndex : Nat) : Int :=
  BASE_MAX_POINTS + (questionIndex : Int) * POINTS_INCREMENT

/-- The base points of a correct answer `d` milliseconds into the open
phase of question `qi`, in exact integer arithmetic.  The source
computes `Math.round(MIN_POINTS + (maxPoints - MIN_POINTS) * timeRatio)`
with `timeRatio = Math.max(0, (15 - d/1000) / 15)`; since
`(15 - d/1000) / 15 = (15000 - d) / 15000` and the denominator is
positive, `timeRatio = max 0 (15000 - d) / 15000` exactly, and the
rounded value is `jsRoundDiv` of the numerator over `15000`.
`basePointsAt_eq_formula` below proves this equal to the rational
formula of the source. -/
def basePointsAt (qi : Nat) (d : Int) : Int :=
  jsRoundDiv (MIN_POINTS * (1000 * ANSWER_TIME) +
    (getMaxPoints qi - MIN_POINTS) * max 0 (1000 * ANSWER_TIME - d)) (1000 * ANSWER_TIME)

/-- The `answerMap` lookup: only the four commands `!a !b !c !d` (the
IRC layer has already trimmed and lower-cased the message). -/
def parseAnswer (m : String) : Option Nat :=
  if m = "!a" then some 0
  else if m = "!b" then some 1
  else if m = "!c" then some 2
  else if m = "!d" then some 3
  else none

/-- `handleChatMessage(chatUsername, message)` at wall-clock time `now`
(milliseconds): guarded no-ops for a closed phase, hidden options, a
missing current question, an already-answered participant, an
unparseable message, and an out-of-range option index; otherwise the
time-decayed base points plus the streak bonus are added to the ledger
entry and the participant joins the answered set.  Total — the source
never throws on chat input. -/
def handleChatMessage (s : GameState) (u m : String) (now : Int) : GameState :=
  if s.phase ≠ Phase.question ∨ s.showOptions = false then s
  else
    match s.questions.get? s.currentQuestionIndex with
    | none => s
    | some q =>
      if u ∈ s.answered then s
      else
        match parseAnswer m with
        | none => s
        | some answerIndex =>
          if q.options.length ≤ answerIndex then s
          else
            let isCorrect : Bool := answerIndex == q.correctIndex
            let basePoints : Int :=
              if isCorrect then basePointsAt s.currentQuestionIndex (now - s.questionStartTime)
              else 0
            let existing := (mapGet s.scores u).getD
              { username := u, score := 0, streak := 0, lastAnswerTime := 0 }
            let newStreak := if isCorrect then existing.streak + 1 else 0
            let streakPoints : Int := if isCorrect ∧ newStreak ≥ 2 then STREAK_BONUS else 0
            { s with
              scores := mapSet s.scores u
                { existing with
                  score := existing.score + basePoints + streakPoints,
                  streak := newStreak,
                  lastAnswerTime := now },
              answered := s.answered ++ [u] }

/-- The streak sweep performed when the answer timer expires: every
ledger entry whose participant is absent from the answered set and has a
positive streak gets `streak := 0`; nothing else changes (`forEach` +
`set` on the same keys of the `Map`). -/
def resetStreaks (scores : List PlayerScore) (answered : List String) : List PlayerScore :=
  scores.map fun p =>
    if p.username ∉ answered ∧ p.streak > 0 then { p with streak := 0 } else p

/-- One tick of the answer (open-phase) timer: at the deadline the
streak sweep runs and the phase flips to `reveal`. -/
def answerTick (s : GameState) : GameState :=
  if s.phase = Phase.question then
    if s.timeLeft ≤ 1 then
      { s with
        scores := resetStreaks s.scores s.answered,
        phase := Phase.reveal,
        timeLeft := REVEAL_TIME }
    else { s with timeLeft := s.timeLeft - 1 }
  else s

/-- One tick of the reveal timer: at the deadline either finish the
round or advance to the next question, clearing the answered set and
hiding options. -/
def revealTick (s : GameState) : GameState :=
  if s.phase = Phase.reveal then
    if s.timeLeft ≤ 1 then
      if (s.questions.length : Int) - 1 ≤ (s.currentQuestionIndex : Int) then
        { s with phase := Phase.finished, timeLeft := 0 }
      else
        { s with
          currentQuestionIndex := s.currentQuestionIndex + 1,
          answered := [],
          showOptions := false,
          phase := Phase.preview,
          timeLeft := QUESTION_PREVIEW_TIME }
    else { s with timeLeft := s.timeLeft - 1 }
  else s

/-- One tick of the question-preview timer: at the deadline options
become visible, the open-phase clock starts (`questionStartTime := now`)
and the phase flips to `question`. -/
def previewTick (s : GameState) (now : Int) : GameState :=
  if s.phase = Phase.preview then
    if s.timeLeft ≤ 1 then
      { s with
        phase := Phase.question,
        showOptions := true,
        questionStartTime := now,
        timeLeft := ANSWER_TIME }
    else { s with timeLeft := s.timeLeft - 1 }
  else s

/-- One tick of the pre-round countdown timer. -/
def countdownTick (s : GameState) : GameState :=
  if s.phase = Phase.countdown then
    if s.timeLeft ≤ 1 then
      { s with phase := Phase.preview, showOptions := false, timeLeft := QUESTION_PREVIEW_TIME }
    else { s with timeLeft := s.timeLeft - 1 }
  else s

/-- `startGame`: presenter action that launches the countdown. -/
def startGame (s : GameState) : GameState :=
  { s with phase := Phase.countdown, timeLeft := COUNTDOWN_TIME }

/-- The events that can occur during one round (restarting begins a new
round and clears the ledger, so it is not a within-round event). -/
inductive Event
  | chat (u m : String) (now : Int)
  | answer
  | reveal
  | preview (now : Int)
  | countdown
  | start

/-- Apply one within-round event. -/
def stepEvent (s : GameState) : Event → GameState
  | Event.chat u m now => handleChatMessage s u m now
  | Event.answer => answerTick s
  | Event.reveal => revealTick s
  | Event.preview now => previewTick s now
  | Event.countdown => countdownTick s
  | Event.start => startGame s

/-- Apply a sequence of within-round events. -/
def runEvents (s : GameState) (evs : List Event) : GameState :=
  evs.foldl stepEvent s

/-! ### Leaderboard -/

/-- Insert an entry into a score-descending list, after every entry with
a score at least as large (the position a stable descending sort gives a
later-inserted entry). -/
def insertDesc (x : PlayerScore) : List PlayerScore → List PlayerScore
  | [] => [x]
  | y :: ys => if x.score ≤ y.score then y :: insertDesc x ys else x :: y :: ys

/-- `Array.from(scores.values()).sort((a, b) => b.score - a.score)`:
a stable sort of the ledger (in insertion order) by score descending. -/
def sortByScoreDesc (l : List PlayerScore) : List PlayerScore :=
  l.foldl (fun acc x => insertDesc x acc) []

/-- The leaderboard projection: stable descending sort, then
`.slice(0, 10)`. -/
def leaderboard (scores : List PlayerScore) : List PlayerScore :=
  (sortByScoreDesc scores).take 10

/-! ### Concrete states used by the end-to-end scenarios -/

/-- A first question (index 0) with two options. -/
def exQuestionA : Question :=
  { id := 1, question := "qA", options := ["a", "b"], correctIndex := 1 }

/-- A second question (index 1) with four options; the correct one is A. -/
def exQuestionB : Question :=
  { id := 2, question := "qB", options := ["w", "x", "y", "z"], correctIndex := 0 }

/-- The open phase of question index 1, clock started at 0, with one
participant who has 500 points and a streak of 1 (the state reached in
scenario A of the spec). -/
def exState : GameState :=
  { phase := Phase.question, questions := [exQuestionA, exQuestionB],
    currentQuestionIndex := 1, timeLeft := 1,
    scores := [{ username := "alice", score := 500, streak := 1, lastAnswerTime := 0 }],
    answered := [], showOptions := true, questionStartTime := 0 }

/-- Ledger entries for the leaderboard-ordering scenario. -/
def entryA : PlayerScore := { username := "A", score := 700, streak := 0, lastAnswerTime := 0 }

def entryB : PlayerScore := { username := "B", score := 0, streak := 0, lastAnswerTime := 0 }

def entryC : PlayerScore := { username := "C", score := 500, streak := 0, lastAnswerTime := 0 }

/-! ### Helper lemmas -/

/-- `jsRoundDiv` agrees with `Math.round` of the exact quotient. -/
theorem jsRoundDiv_eq_jsRound (p q : Int) (hq : 0 < q) :
    jsRoundDiv p q = jsRound ((p : ℚ) / (q : ℚ)) := by
  have h2q : (((2 * q).toNat : ℤ)) = 2 * q := Int.toNat_of_nonneg (by omega)
  have hqQ : (q : ℚ) ≠ 0 := by
    exact_mod_cast (by omega : (q : ℤ) ≠ 0)
  have harg : (p : ℚ) / (q : ℚ) + 1 / 2 = ((2 * p + q : ℤ) : ℚ) / (((2 * q).toNat : ℕ) : ℚ) := by
    have hcast : (((2 * q).toNat : ℕ) : ℚ) = ((2 * q : ℤ) : ℚ) := by exact_mod_cast congrArg Int.cast h2q
    rw [hcast]
    push_cast
    field_simp
    ring
  rw [jsRound, harg, Rat.floor_intCast_div_natCast, h2q, jsRoundDiv]

/-- `basePointsAt` is the rational scoring formula of the source:
`Math.round(MIN_POINTS + (maxPoints - MIN_POINTS) * timeRatio)` with
`timeRatio = max 0 ((ANSWER_TIME - d/1000) / ANSWER_TIME)`. -/
theorem basePointsAt_eq_formula (qi : Nat) (d : Int) :
    basePointsAt qi d
      = jsRound ((MIN_POINTS : ℚ) + ((getMaxPoints qi : ℚ) - (MIN_POINTS : ℚ)) *
          max 0 (((ANSWER_TIME : ℚ) - (d : ℚ) / 1000) / (ANSWER_TIME : ℚ))) := by
  have hmax : max (0 : ℚ) (((ANSWER_TIME : ℚ) - (d : ℚ) / 1000) / (ANSWER_TIME : ℚ))
      = ((max 0 (1000 * ANSWER_TIME - d) : ℤ) : ℚ) / ((1000 * ANSWER_TIME : ℤ) : ℚ) := by
    have h1 : ((ANSWER_TIME : ℚ) - (d : ℚ) / 1000) / (ANSWER_TIME : ℚ)
        = ((1000 * ANSWER_TIME - d : ℤ) : ℚ) / ((1000 * ANSWER_TIME : ℤ) : ℚ) := by
      simp only [ANSWER_TIME]
      push_cast
      field_simp
      ring
    rw [h1, Int.cast_max]
    rw [← max_div_div_right (by simp [ANSWER_TIME] : (0 : ℚ) ≤ ((1000 * ANSWER_TIME : ℤ) : ℚ))]
    simp
  rw [basePointsAt, jsRoundDiv_eq_jsRound _ _ (by decide), hmax, jsRound, jsRound]
  congr 1
  simp only [ANSWER_TIME]
  push_cast
  field_simp

/-- The base points of a correct answer are never negative (they are at
least `MIN_POINTS`, but nonnegativity is all monotonicity needs). -/
theorem basePointsAt_nonneg (qi : Nat) (d : Int) : 0 ≤ basePointsAt qi d := by
  rw [basePointsAt, jsRoundDiv]
  apply Int.ediv_nonneg _ (by decide)
  have h1 : 0 ≤ getMaxPoints qi - MIN_POINTS := by
    simp only [getMaxPoints, BASE_MAX_POINTS, POINTS_INCREMENT, MIN_POINTS]
    omega
  have h2 : (0 : ℤ) ≤ max 0 (1000 * ANSWER_TIME - d) := le_max_left _ _
  have h3 : (0 : ℤ) ≤ MIN_POINTS * (1000 * ANSWER_TIME) := by decide
  have h4 : (0 : ℤ) ≤ 1000 * ANSWER_TIME := by decide
  linarith [mul_nonneg h1 h2]

/-- Looking up the key just set returns the new entry. -/
theorem mapGet_mapSet_self (l : List PlayerScore) (u : String) (p : PlayerScore)
    (hp : p.username = u) : mapGet (mapSet l u p) u = some p := by
  induction l with
  | nil =>
    show mapGet [p] u = some p
    simp only [mapGet]
    rw [List.find?_cons_of_pos _ (by simp [hp])]
  | cons q qs ih =>
    by_cases h : q.username = u
    · show mapGet (if q.username = u then p :: qs else q :: mapSet qs u p) u = some p
      rw [if_pos h]
      simp only [mapGet]
      rw [List.find?_cons_of_pos _ (by simp [hp])]
    · show mapGet (if q.username = u then p :: qs else q :: mapSet qs u p) u = some p
      rw [if_neg h]
      simp only [mapGet]
      rw [List.find?_cons_of_neg _ (by simp [h])]
      exact ih

/-- Setting one key leaves every other key's lookup unchanged. -/
theorem mapGet_mapSet_ne (l : List PlayerScore) (u v : String) (p : PlayerScore)
    (hp : p.username = u) (hne : v ≠ u) : mapGet (mapSet l u p) v = mapGet l v := by
  induction l with
  | nil =>
    show mapGet [p] v = mapGet [] v
    simp only [mapGet]
    rw [List.find?_cons_of_neg _ (by simp [hp, Ne.symm hne])]
  | cons q qs ih =>
    by_cases h : q.username = u
    · show mapGet (if q.username = u then p :: qs else q :: mapSet qs u p) v = mapGet (q :: qs) v
      rw [if_pos h]
      simp only [mapGet]
      rw [List.find?_cons_of_neg _ (by simp [hp, Ne.symm hne]),
        List.find?_cons_of_neg _ (by rw [h]; simp [Ne.symm hne])]
    · show mapGet (if q.username = u then p :: qs else q :: mapSet qs u p) v = mapGet (q :: qs) v
      rw [if_neg h]
      by_cases hv : q.username = v
      · simp only [mapGet]
        rw [List.find?_cons_of_pos _ (by simp [hv]), List.find?_cons_of_pos _ (by simp [hv])]
      · simp only [mapGet]
        rw [List.find?_cons_of_neg _ (by simp [hv]), List.find?_cons_of_neg _ (by simp [hv])]
        exact ih

/-- A found ledger entry carries the key it was looked up by. -/
theorem mapGet_username (l : List PlayerScore) (u : String) (p : PlayerScore)
    (h : mapGet l u = some p) : p.username = u := by
  have := List.find?_some h
  simpa using this

/-- The streak sweep reshapes each lookup pointwise. -/
theorem mapGet_resetStreaks (l : List PlayerScore) (ans : List String) (u : String) :
    mapGet (resetStreaks l ans) u
      = (mapGet l u).map (fun p =>
          if p.username ∉ ans ∧ p.streak > 0 then { p with streak := 0 } else p) := by
  induction l with
  | nil => rfl
  | cons q qs ih =>
    have husr : (if q.username ∉ ans ∧ q.streak > 0 then { q with streak := 0 } else q).username
        = q.username := by
      split <;> rfl
    simp only [resetStreaks, List.map_cons] at *
    by_cases h : q.username = u
    · simp only [mapGet]
      rw [List.find?_cons_of_pos _ (by split <;> simp [h]),
        List.find?_cons_of_pos _ (by simp [h])]
      rfl
    · simp only [mapGet]
      rw [List.find?_cons_of_neg _ (by split <;> simp [h]),
        List.find?_cons_of_neg _ (by simp [h])]
      exact ih

/-- What an accepted submission does to the state, with all guards
discharged. -/
theorem handleChatMessage_accepted (s : GameState) (u m : String) (now : Int)
    (i : Nat) (q : Question)
    (hphase : s.phase = Phase.question) (hshow : s.showOptions = true)
    (hq : s.questions.get? s.currentQuestionIndex = some q)
    (hans : u ∉ s.answered)
    (hparse : parseAnswer m = some i)
    (hrange : i < q.options.length) :
    handleChatMessage s u m now =
      { s with
        scores := mapSet s.scores u
          { username := ((mapGet s.scores u).getD
              { username := u, score := 0, streak := 0, lastAnswerTime := 0 }).username,
            score := ((mapGet s.scores u).getD
                { username := u, score := 0, streak := 0, lastAnswerTime := 0 }).score
              + (if (i == q.correctIndex) then
                  basePointsAt s.currentQuestionIndex (now - s.questionStartTime) else 0)
              + (if (i == q.correctIndex)
                    ∧ (if (i == q.correctIndex) then ((mapGet s.scores u).getD
                        { username := u, score := 0, streak := 0,
                          lastAnswerTime := 0 }).streak + 1 else 0) ≥ 2
                 then STREAK_BONUS else 0),
            streak := if (i == q.correctIndex) then ((mapGet s.scores u).getD
                { username := u, score := 0, streak := 0, lastAnswerTime := 0 }).streak + 1
              else 0,
            lastAnswerTime := now },
        answered := s.answered ++ [u] } := by
  unfold handleChatMessage
  rw [if_neg (by simp [hphase, hshow])]
  simp only [hq, hparse]
  rw [if_neg hans, if_neg (not_le.2 hrange)]

/-- Every rejected submission leaves the state unchanged. -/
theorem handleChatMessage_noop (s : GameState) (u m : String) (now : Int)
    (h : ¬(s.phase = Phase.question ∧ s.showOptions = true)
       ∨ parseAnswer m = none
       ∨ ∃ i q, parseAnswer m = some i
           ∧ s.questions.get? s.currentQuestionIndex = some q
           ∧ q.options.length ≤ i) :
    handleChatMessage s u m now = s := by
  unfold handleChatMessage
  by_cases hcond : s.phase ≠ Phase.question ∨ s.showOptions = false
  · rw [if_pos hcond]
  · rw [if_neg hcond]
    push_neg at hcond
    obtain ⟨hph, hsw⟩ := hcond
    have hsw2 : s.showOptions = true := by
      cases hso : s.showOptions
      · exact absurd hso hsw
      · rfl
    rcases h with h | h | ⟨i, q, hp, hq, hlen⟩
    · exact absurd ⟨hph, hsw2⟩ h
    · cases hq2 : s.questions.get? s.currentQuestionIndex with
      | none => rfl
      | some q =>
        dsimp only
        by_cases hans : u ∈ s.answered
        · rw [if_pos hans]
        · rw [if_neg hans]
          simp only [h]
    · rw [hq]
      dsimp only
      by_cases hans : u ∈ s.answered
      · rw [if_pos hans]
      · rw [if_neg hans]
        simp only [hp]
        rw [if_pos hlen]

/-! ### Claim theorems -/

/-- C8: `submit_answer` is total (the embedding is a total function, as
the source never throws on chat input) and a strict no-op whenever the
current phase is not the open phase, the raw message does not parse to
an option command, or the parsed index is at least the current
question's option count. -/
theorem submit_answer_noop (s : GameState) (u m : String) (now : Int)
    (h : ¬(s.phase = Phase.question ∧ s.showOptions = true)
       ∨ parseAnswer m = none
       ∨ ∃ i q, parseAnswer m = some i
           ∧ s.questions.get? s.currentQuestionIndex = some q
           ∧ q.options.length ≤ i) :
    handleChatMessage s u m now = s :=
  handleChatMessage_noop s u m now h

/-- Witness for C8: a closed phase, an unparseable message, and an
out-of-range command are each rejected without any state change. -/
theorem submit_answer_noop_witness :
    handleChatMessage { exState with phase := Phase.reveal } "bob" "!a" 0
      = { exState with phase := Phase.reveal }
  ∧ handleChatMessage exState "bob" "hello" 0 = exState
  ∧ handleChatMessage { exState with currentQuestionIndex := 0 } "bob" "!c" 0
      = { exState with currentQuestionIndex := 0 } :=
  ⟨submit_answer_noop _ "bob" "!a" 0 (Or.inl (by decide)),
   submit_answer_noop _ "bob" "hello" 0 (Or.inr (Or.inl (by decide))),
   submit_answer_noop _ "bob" "!c" 0
     (Or.inr (Or.inr ⟨2, exQuestionA, by decide, by decide, by decide⟩))⟩

/-- C2: an accepted correct answer at time `now` adds exactly
`round(MIN_POINTS + (maxPoints - MIN_POINTS) * timeRatio)` to the score,
plus `STREAK_BONUS` exactly when the new streak is at least 2; the
second conjunct records that the streak increments, and the third that
the base points are the rational time-decay formula of the source. -/
theorem submit_correct_score (s : GameState) (u m : String) (now : Int)
    (i : Nat) (q : Question)
    (hphase : s.phase = Phase.question) (hshow : s.showOptions = true)
    (hq : s.questions.get? s.currentQuestionIndex = some q)
    (hans : u ∉ s.answered)
    (hparse : parseAnswer m = some i)
    (hrange : i < q.options.length)
    (hcorrect : i = q.correctIndex) :
    (scoreOf (handleChatMessage s u m now) u
      = scoreOf s u + basePointsAt s.currentQuestionIndex (now - s.questionStartTime)
        + (if 2 ≤ streakOf s u + 1 then STREAK_BONUS else 0))
  ∧ streakOf (handleChatMessage s u m now) u = streakOf s u + 1
  ∧ basePointsAt s.currentQuestionIndex (now - s.questionStartTime)
      = jsRound ((MIN_POINTS : ℚ) + ((getMaxPoints s.currentQuestionIndex : ℚ)
            - (MIN_POINTS : ℚ))
          * max 0 (((ANSWER_TIME : ℚ) - ((now - s.questionStartTime : ℤ) : ℚ) / 1000)
              / (ANSWER_TIME : ℚ))) := by
  have hb : (i == q.correctIndex) = true := by simp [hcorrect]
  have hstep := handleChatMessage_accepted s u m now i q hphase hshow hq hans hparse hrange
  have husr : ((mapGet s.scores u).getD
      { username := u, score := 0, streak := 0, lastAnswerTime := 0 }).username = u := by
    cases hmg : mapGet s.scores u with
    | none => simp
    | some p => simpa using mapGet_username s.scores u p hmg
  have hscore : scoreOf s u = ((mapGet s.scores u).getD
      { username := u, score := 0, streak := 0, lastAnswerTime := 0 }).score := by
    cases hmg : mapGet s.scores u <;> simp [scoreOf, hmg]
  have hstreak : streakOf s u = ((mapGet s.scores u).getD
      { username := u, score := 0, streak := 0, lastAnswerTime := 0 }).streak := by
    cases hmg : mapGet s.scores u <;> simp [streakOf, hmg]
  refine ⟨?_, ?_, basePointsAt_eq_formula _ _⟩
  · rw [hscore, hstreak, hstep]
    simp only [scoreOf]
    rw [mapGet_mapSet_self]
    · simp [hb]
    · exact husr
  · rw [hstreak, hstep]
    simp only [streakOf]
    rw [mapGet_mapSet_self]
    · simp [hb]
    · exact husr

/-- Witness for C2, scenario B of the spec: on question index 1, a
correct answer at elapsed 15 s by a participant whose streak becomes 2
adds `100 + 100 = 200` points, for a cumulative 700. -/
theorem submit_correct_score_witness :
    scoreOf (handleChatMessage exState "alice" "!a" 15000) "alice" = 700
  ∧ basePointsAt 1 15000 = 100 := by
  obtain ⟨h1, h2, h3⟩ := submit_correct_score exState "alice" "!a" 15000 0 exQuestionB
    rfl rfl rfl (by decide) (by decide) (by decide) (by decide)
  refine ⟨?_, by decide⟩
  rw [h1]
  decide

/-- C4: after an accepted submission, any further submission by the same
participant during the same question's open phase leaves the entire
state — ledger, answered set, and round bookkeeping — unchanged. -/
theorem submit_answer_idempotent (s : GameState) (u m1 : String) (now1 : Int)
    (i : Nat) (q : Question)
    (hphase : s.phase = Phase.question) (hshow : s.showOptions = true)
    (hq : s.questions.get? s.currentQuestionIndex = some q)
    (hans : u ∉ s.answered)
    (hparse : parseAnswer m1 = some i)
    (hrange : i < q.options.length) :
    ∀ (m2 : String) (now2 : Int),
      handleChatMessage (handleChatMessage s u m1 now1) u m2 now2
        = handleChatMessage s u m1 now1 := by
  intro m2 now2
  have hstep := handleChatMessage_accepted s u m1 now1 i q hphase hshow hq hans hparse hrange
  rw [hstep]
  unfold handleChatMessage
  rw [if_neg (by simp [hphase, hshow])]
  dsimp only
  simp only [hq]
  rw [if_pos (by simp : u ∈ s.answered ++ [u])]

/-- Witness for C4 at a concrete double submission. -/
theorem submit_answer_idempotent_witness :
    handleChatMessage (handleChatMessage exState "alice" "!a" 14000) "alice" "!b" 14500
      = handleChatMessage exState "alice" "!a" 14000 :=
  submit_answer_idempotent exState "alice" "!a" 14000 0 exQuestionB
    rfl rfl rfl (by decide) (by decide) (by decide) "!b" 14500

/-- A submission with no loaded current question is a no-op. -/
theorem handleChatMessage_noQuestion (s : GameState) (u m : String) (now : Int)
    (hq : s.questions.get? s.currentQuestionIndex = none) :
    handleChatMessage s u m now = s := by
  unfold handleChatMessage
  by_cases hc : s.phase ≠ Phase.question ∨ s.showOptions = false
  · rw [if_pos hc]
  · rw [if_neg hc]
    rw [hq]

/-- A submission by a participant already in the answered set is a
no-op. -/
theorem handleChatMessage_answered (s : GameState) (u m : String) (now : Int)
    (h : u ∈ s.answered) :
    handleChatMessage s u m now = s := by
  unfold handleChatMessage
  by_cases hc : s.phase ≠ Phase.question ∨ s.showOptions = false
  · rw [if_pos hc]
  · rw [if_neg hc]
    cases hq : s.questions.get? s.currentQuestionIndex with
    | none => rfl
    | some q =>
      dsimp only
      rw [if_pos h]

/-- The default-completed lookup always carries the looked-up key. -/
theorem mapGet_getD_username (l : List PlayerScore) (u : String) :
    ((mapGet l u).getD
      { username := u, score := 0, streak := 0, lastAnswerTime := 0 }).username = u := by
  cases hmg : mapGet l u with
  | none => simp
  | some p => simpa using mapGet_username l u p hmg

/-- `scoreOf` as the score of the default-completed lookup. -/
theorem scoreOf_eq_getD (s : GameState) (u : String) :
    scoreOf s u = ((mapGet s.scores u).getD
      { username := u, score := 0, streak := 0, lastAnswerTime := 0 }).score := by
  cases hmg : mapGet s.scores u <;> simp [scoreOf, hmg]

/-- The streak sweep never changes a score. -/
theorem scoreOf_answerTick (s : GameState) (u : String) :
    scoreOf (answerTick s) u = scoreOf s u := by
  unfold answerTick
  split
  · split
    · simp only [scoreOf]
      rw [mapGet_resetStreaks]
      cases mapGet s.scores u with
      | none => rfl
      | some p =>
        simp only [Option.map_some', Option.getD_some]
        split <;> rfl
    · rfl
  · rfl

/-- The reveal timer never touches the ledger. -/
theorem scores_revealTick (s : GameState) : (revealTick s).scores = s.scores := by
  unfold revealTick
  repeat' split
  all_goals rfl

/-- The preview timer never touches the ledger. -/
theorem scores_previewTick (s : GameState) (now : Int) :
    (previewTick s now).scores = s.scores := by
  unfold previewTick
  repeat' split
  all_goals rfl

/-- The countdown timer never touches the ledger. -/
theorem scores_countdownTick (s : GameState) : (countdownTick s).scores = s.scores := by
  unfold countdownTick
  repeat' split
  all_goals rfl

/-- One chat event never decreases any participant's score. -/
theorem scoreOf_handleChat_le (s : GameState) (v m : String) (now : Int) (u : String) :
    scoreOf s u ≤ scoreOf (handleChatMessage s v m now) u := by
  by_cases h1 : s.phase = Phase.question ∧ s.showOptions = true
  · obtain ⟨hph, hsw⟩ := h1
    cases hq : s.questions.get? s.currentQuestionIndex with
    | none => rw [handleChatMessage_noQuestion s v m now hq]
    | some q =>
      by_cases hans : v ∈ s.answered
      · rw [handleChatMessage_answered s v m now hans]
      · cases hp : parseAnswer m with
        | none => rw [handleChatMessage_noop s v m now (Or.inr (Or.inl hp))]
        | some i =>
          by_cases hlen : q.options.length ≤ i
          · rw [handleChatMessage_noop s v m now (Or.inr (Or.inr ⟨i, q, hp, hq, hlen⟩))]
          · rw [handleChatMessage_accepted s v m now i q hph hsw hq hans hp (not_le.1 hlen)]
            by_cases huv : u = v
            · subst huv
              rw [scoreOf_eq_getD]
              simp only [scoreOf]
              rw [mapGet_mapSet_self]
              · simp only [Option.map_some', Option.getD_some]
                have hbase : (0 : ℤ) ≤ (if (i == q.correctIndex) = true then
                    basePointsAt s.currentQuestionIndex (now - s.questionStartTime) else 0) := by
                  split
                  · exact basePointsAt_nonneg _ _
                  · exact le_refl 0
                have hbonus : ∀ c : Prop, ∀ h : Decidable c,
                    (0 : ℤ) ≤ (if c then STREAK_BONUS else 0) := by
                  intro c h
                  split
                  · decide
                  · exact le_refl 0
                have := hbonus ((i == q.correctIndex) = true ∧
                  (if (i == q.correctIndex) = true then ((mapGet s.scores u).getD
                    { username := u, score := 0, streak := 0,
                      lastAnswerTime := 0 }).streak + 1 else 0) ≥ 2) (by infer_instance)
                omega
              · exact mapGet_getD_username s.scores u
            · simp only [scoreOf]
              rw [mapGet_mapSet_ne]
              · exact mapGet_getD_username s.scores v
              · exact huv
  · rw [handleChatMessage_noop s v m now (Or.inl h1)]

/-- An answer that is not the correct index never changes any score. -/
theorem scoreOf_incorrect (s : GameState) (v m : String) (now : Int) (i : Nat) (q : Question)
    (hp : parseAnswer m = some i)
    (hq : s.questions.get? s.currentQuestionIndex = some q)
    (hne : i ≠ q.correctIndex) (w : String) :
    scoreOf (handleChatMessage s v m now) w = scoreOf s w := by
  by_cases h1 : s.phase = Phase.question ∧ s.showOptions = true
  · obtain ⟨hph, hsw⟩ := h1
    by_cases hans : v ∈ s.answered
    · rw [handleChatMessage_answered s v m now hans]
    · by_cases hlen : q.options.length ≤ i
      · rw [handleChatMessage_noop s v m now (Or.inr (Or.inr ⟨i, q, hp, hq, hlen⟩))]
      · rw [handleChatMessage_accepted s v m now i q hph hsw hq hans hp (not_le.1 hlen)]
        have hb : (i == q.correctIndex) = false := by simp [hne]
        by_cases hwv : w = v
        · subst hwv
          rw [scoreOf_eq_getD]
          simp only [scoreOf]
          rw [mapGet_mapSet_self]
          · simp only [Option.map_some', Option.getD_some]
            simp [hb]
            cases hmg : mapGet s.scores w <;> simp [hmg]
          · exact mapGet_getD_username s.scores w
        · simp only [scoreOf]
          rw [mapGet_mapSet_ne]
          · exact mapGet_getD_username s.scores v
          · exact hwv
  · rw [handleChatMessage_noop s v m now (Or.inl h1)]

/-- Any single within-round event never decreases any score. -/
theorem scoreOf_stepEvent_le (s : GameState) (e : Event) (u : String) :
    scoreOf s u ≤ scoreOf (stepEvent s e) u := by
  cases e with
  | chat v m now => exact scoreOf_handleChat_le s v m now u
  | answer => exact le_of_eq (scoreOf_answerTick s u).symm
  | reveal => simp [stepEvent, scoreOf, scores_revealTick]
  | preview now => simp [stepEvent, scoreOf, scores_previewTick]
  | countdown => simp [stepEvent, scoreOf, scores_countdownTick]
  | start => exact le_refl _

/-- Scores never decrease across any within-round event sequence. -/
theorem scoreOf_runEvents_le (s : GameState) (evs : List Event) (u : String) :
    scoreOf s u ≤ scoreOf (runEvents s evs) u := by
  induction evs generalizing s with
  | nil => exact le_refl _
  | cons e evs ih =>
    exact le_trans (scoreOf_stepEvent_le s e u) (ih (stepEvent s e))

/-- C3: across any sequence of within-round events (submissions and
phase transitions), every participant's score is non-decreasing; an
unparseable message is a strict no-op, a submission outside the open
phase is a strict no-op, and an incorrect answer changes no score. -/
theorem score_monotone (s : GameState) (evs : List Event) (u : String) :
    scoreOf s u ≤ scoreOf (runEvents s evs) u
  ∧ (∀ (v m : String) (now : Int), parseAnswer m = none →
      handleChatMessage s v m now = s)
  ∧ (∀ (v m : String) (now : Int), s.phase ≠ Phase.question →
      handleChatMessage s v m now = s)
  ∧ (∀ (v m : String) (now : Int) (i : Nat) (q : Question),
      parseAnswer m = some i →
      s.questions.get? s.currentQuestionIndex = some q →
      i ≠ q.correctIndex →
      ∀ w, scoreOf (handleChatMessage s v m now) w = scoreOf s w) := by
  refine ⟨scoreOf_runEvents_le s evs u, ?_, ?_, ?_⟩
  · intro v m now hp
    exact handleChatMessage_noop s v m now (Or.inr (Or.inl hp))
  · intro v m now hph
    exact handleChatMessage_noop s v m now (Or.inl (fun hc => hph hc.1))
  · intro v m now i q hp hq hne w
    exact scoreOf_incorrect s v m now i q hp hq hne w

/-- Witness for C3: a concrete event sequence (a correct answer followed
by the open-phase timeout) never lowers the score, and a noisy chat
message is ignored. -/
theorem score_monotone_witness :
    scoreOf exState "alice"
      ≤ scoreOf (runEvents exState [Event.chat "alice" "!a" 15000, Event.answer]) "alice"
  ∧ handleChatMessage exState "alice" "hello" 0 = exState :=
  ⟨(score_monotone exState [Event.chat "alice" "!a" 15000, Event.answer] "alice").1,
   (score_monotone exState [] "alice").2.1 "alice" "hello" 0 (by decide)⟩

/-- C7: at the Open→Reveal timeout, every ledger entry keeps its
username, score and last-answer time; the streak becomes 0 exactly for
participants absent from the answered set with a positive streak and is
untouched otherwise; and the answered set, question list, question
index, option visibility and clock origin are all unchanged. -/
theorem open_to_reveal_sweep (s : GameState)
    (hphase : s.phase = Phase.question) (hdl : s.timeLeft ≤ 1) :
    (answerTick s).phase = Phase.reveal
  ∧ (∀ (j : Nat) (p : PlayerScore), s.scores.get? j = some p →
      ∃ p2, (answerTick s).scores.get? j = some p2
        ∧ p2.username = p.username
        ∧ p2.score = p.score
        ∧ p2.lastAnswerTime = p.lastAnswerTime
        ∧ p2.streak = (if p.username ∉ s.answered ∧ p.streak > 0 then 0 else p.streak))
  ∧ (answerTick s).scores.length = s.scores.length
  ∧ (answerTick s).questions = s.questions
  ∧ (answerTick s).currentQuestionIndex = s.currentQuestionIndex
  ∧ (answerTick s).answered = s.answered
  ∧ (answerTick s).showOptions = s.showOptions
  ∧ (answerTick s).questionStartTime = s.questionStartTime := by
  have hA : answerTick s =
      { s with scores := resetStreaks s.scores s.answered,
               phase := Phase.reveal, timeLeft := REVEAL_TIME } := by
    unfold answerTick
    rw [if_pos hphase, if_pos hdl]
  rw [hA]
  refine ⟨rfl, ?_, ?_, rfl, rfl, rfl, rfl, rfl⟩
  · intro j p hp
    have hp2 : s.scores[j]? = some p := by
      rw [← List.get?_eq_getElem?]
      exact hp
    have hg : (resetStreaks s.scores s.answered).get? j
        = some (if p.username ∉ s.answered ∧ p.streak > 0
            then { p with streak := 0 } else p) := by
      simp only [resetStreaks, List.get?_eq_getElem?, List.getElem?_map, hp2, Option.map_some']
    by_cases hc : p.username ∉ s.answered ∧ p.streak > 0
    · exact ⟨{ p with streak := 0 }, by simpa [hc] using hg, rfl, rfl, rfl, by simp [hc]⟩
    · exact ⟨p, by simpa [hc] using hg, rfl, rfl, rfl, by simp [hc]⟩
  · simp [resetStreaks]

/-- Witness for C7 at the concrete open-phase state: the phase flips to
reveal, the silent participant keeps their score but loses the streak,
and the answered set is untouched. -/
theorem open_to_reveal_sweep_witness :
    (answerTick exState).phase = Phase.reveal
  ∧ (answerTick exState).answered = exState.answered
  ∧ (answerTick exState).scores.length = exState.scores.length :=
  ⟨(open_to_reveal_sweep exState rfl (by decide)).1,
   (open_to_reveal_sweep exState rfl (by decide)).2.2.2.2.2.1,
   (open_to_reveal_sweep exState rfl (by decide)).2.2.1⟩

/-- C6: for every correct string, every sequence of wrong strings, and
every permutation the random comparator sort may produce,
`shuffleWithCorrect` returns an options sequence that is a permutation
of the multiset `{correct} ∪ wrongs` together with a `correctIndex` in
range such that `options[correctIndex] = correct`. -/
theorem shuffleWithCorrect_spec (correct : String) (wrong : List String)
    (shuffled : List String) (hperm : shuffled.Perm (allOptions correct wrong)) :
    (shuffleWithCorrect correct shuffled).options.Perm (allOptions correct wrong)
  ∧ (shuffleWithCorrect correct shuffled).correctIndex
      < (shuffleWithCorrect correct shuffled).options.length
  ∧ (shuffleWithCorrect correct shuffled).options.get?
      (shuffleWithCorrect correct shuffled).correctIndex = some correct := by
  have hmem : correct ∈ shuffled := hperm.mem_iff.2 (by simp [allOptions])
  exact ⟨hperm, List.indexOf_lt_length.2 hmem, List.indexOf_get? hmem⟩

/-- Witness for C6 at a concrete shuffle of one correct and three wrong
values. -/
theorem shuffleWithCorrect_spec_witness :
    (shuffleWithCorrect "1500" ["1450", "1500", "1560", "1520"]).options.Perm
        (allOptions "1500" ["1450", "1520", "1560"])
  ∧ (shuffleWithCorrect "1500" ["1450", "1500", "1560", "1520"]).correctIndex
      < (shuffleWithCorrect "1500" ["1450", "1500", "1560", "1520"]).options.length
  ∧ (shuffleWithCorrect "1500" ["1450", "1500", "1560", "1520"]).options.get?
      (shuffleWithCorrect "1500" ["1450", "1500", "1560", "1520"]).correctIndex
      = some "1500" :=
  shuffleWithCorrect_spec "1500" ["1450", "1520", "1560"]
    ["1450", "1500", "1560", "1520"] (by decide)

/-- C10: the streamer rule fires exactly when `is_streamer` is defined;
the emitted question has exactly two distinct options with the true
answer placed first and `correctIndex = 0` — the rule never shuffles, so
the correct answer is always option A. -/
theorem isStreamerQuestion_spec (name : String) (qid : Nat) (b : Bool) :
    isStreamerQuestion name qid none = none
  ∧ ∃ q, isStreamerQuestion name qid (some b) = some q
      ∧ q.options = [if b then "Yes" else "No", if b then "No" else "Yes"]
      ∧ q.options.length = 2
      ∧ q.correctIndex = 0
      ∧ q.options.get? q.correctIndex = some (if b then "Yes" else "No")
      ∧ q.options.Nodup := by
  refine ⟨rfl, _, rfl, rfl, rfl, rfl, rfl, ?_⟩
  show ([if b then "Yes" else "No", if b then "No" else "Yes"] : List String).Nodup
  cases b <;> decide

/-- Inserting into the sorted accumulator is a permutation of consing. -/
theorem insertDesc_perm (x : PlayerScore) (l : List PlayerScore) :
    (insertDesc x l).Perm (x :: l) := by
  induction l with
  | nil => exact List.Perm.refl _
  | cons y ys ih =>
    unfold insertDesc
    split
    · exact (ih.cons y).trans (List.Perm.swap x y ys)
    · exact List.Perm.refl _

/-- The insertion-sort fold is a permutation of the accumulator plus
the input. -/
theorem sortAux_perm (l acc : List PlayerScore) :
    (l.foldl (fun a x => insertDesc x a) acc).Perm (acc ++ l) := by
  induction l generalizing acc with
  | nil => simp
  | cons x xs ih =>
    simp only [List.foldl_cons]
    refine (ih (insertDesc x acc)).trans ?_
    have h1 : (insertDesc x acc ++ xs).Perm ((x :: acc) ++ xs) :=
      (insertDesc_perm x acc).append_right xs
    have h2 : ((x :: acc) ++ xs).Perm (acc ++ x :: xs) := List.perm_middle.symm
    exact h1.trans h2

/-- Insertion preserves the score-descending pairwise order. -/
theorem insertDesc_pairwise (x : PlayerScore) (l : List PlayerScore)
    (h : l.Pairwise (fun a b => b.score ≤ a.score)) :
    (insertDesc x l).Pairwise (fun a b => b.score ≤ a.score) := by
  induction l with
  | nil => simp [insertDesc]
  | cons y ys ih =>
    rw [List.pairwise_cons] at h
    obtain ⟨hy, hys⟩ := h
    unfold insertDesc
    split
    · rename_i hxy
      rw [List.pairwise_cons]
      refine ⟨?_, ih hys⟩
      intro z hz
      rcases List.mem_cons.1 ((insertDesc_perm x ys).mem_iff.1 hz) with rfl | hz2
      · exact hxy
      · exact hy z hz2
    · rename_i hxy
      rw [List.pairwise_cons]
      refine ⟨?_, List.pairwise_cons.2 ⟨hy, hys⟩⟩
      intro z hz
      rcases List.mem_cons.1 hz with rfl | hz2
      · exact le_of_lt (not_le.1 hxy)
      · exact le_trans (hy z hz2) (le_of_lt (not_le.1 hxy))

/-- The insertion-sort fold yields a score-descending list. -/
theorem sortAux_pairwise (l acc : List PlayerScore)
    (hacc : acc.Pairwise (fun a b => b.score ≤ a.score)) :
    (l.foldl (fun a x => insertDesc x a) acc).Pairwise (fun a b => b.score ≤ a.score) := by
  induction l generalizing acc with
  | nil => exact hacc
  | cons x xs ih =>
    simp only [List.foldl_cons]
    exact ih (insertDesc x acc) (insertDesc_pairwise x acc hacc)

/-- Stability of insertion into a sorted accumulator: a later-inserted
entry lands after every already-present entry of the same score. -/
theorem filter_insertDesc (x : PlayerScore) (l : List PlayerScore)
    (hl : l.Pairwise (fun a b => b.score ≤ a.score)) (c : Int) :
    (insertDesc x l).filter (fun p => p.score == c)
      = if x.score = c then l.filter (fun p => p.score == c) ++ [x]
        else l.filter (fun p => p.score == c) := by
  induction l with
  | nil => by_cases hx : x.score = c <;> simp [insertDesc, hx]
  | cons y ys ih =>
    rw [List.pairwise_cons] at hl
    obtain ⟨hy, hys⟩ := hl
    unfold insertDesc
    split
    · rename_i hxy
      by_cases hyc : y.score = c <;> by_cases hxc : x.score = c <;>
        simp [List.filter_cons, hyc, hxc, ih hys]
    · rename_i hxy
      have hxlt : y.score < x.score := not_le.1 hxy
      by_cases hxc : x.score = c
      · have hfe : (y :: ys).filter (fun p => p.score == c) = [] := by
          rw [List.filter_eq_nil_iff]
          intro a ha
          rcases List.mem_cons.1 ha with rfl | ha2
          · simp only [beq_iff_eq]
            omega
          · have := hy a ha2
            simp only [beq_iff_eq]
            omega
        simp [List.filter_cons, hxc, hfe]
      · simp [List.filter_cons, hxc]

/-- Stability of the whole fold: the score-`c` entries of the sorted
output are exactly the score-`c` entries of the input, in input
(insertion) order. -/
theorem sortAux_filter (l acc : List PlayerScore)
    (hacc : acc.Pairwise (fun a b => b.score ≤ a.score)) (c : Int) :
    (l.foldl (fun a x => insertDesc x a) acc).filter (fun p => p.score == c)
      = acc.filter (fun p => p.score == c) ++ l.filter (fun p => p.score == c) := by
  induction l generalizing acc with
  | nil => simp
  | cons x xs ih =>
    simp only [List.foldl_cons]
    rw [ih (insertDesc x acc) (insertDesc_pairwise x acc hacc),
      filter_insertDesc x acc hacc c]
    by_cases hxc : x.score = c <;> simp [List.filter_cons, hxc]

/-- C9: the leaderboard is the ledger sorted by score descending, a
permutation of the ledger, stable (equal scores keep their ledger
insertion order), truncated to the top 10; and on the concrete scores
`{A: 700, B: 0, C: 500}` it is `[A, C, B]`. -/
theorem leaderboard_spec :
    (∀ l : List PlayerScore, (sortByScoreDesc l).Perm l)
  ∧ (∀ l : List PlayerScore,
      (sortByScoreDesc l).Pairwise (fun a b => b.score ≤ a.score))
  ∧ (∀ (l : List PlayerScore) (c : Int),
      (sortByScoreDesc l).filter (fun p => p.score == c)
        = l.filter (fun p => p.score == c))
  ∧ (∀ l : List PlayerScore, leaderboard l = (sortByScoreDesc l).take 10)
  ∧ leaderboard [entryA, entryB, entryC] = [entryA, entryC, entryB] := by
  refine ⟨?_, ?_, ?_, fun l => rfl, by decide⟩
  · intro l
    simpa using sortAux_perm l []
  · intro l
    exact sortAux_pairwise l [] List.Pairwise.nil
  · intro l c
    simpa using sortAux_filter l [] List.Pairwise.nil c

/-- C1 (violated by the code): the wrong-answer generator run on the
concrete draw stream `301, 302, 303` (each draw below `2 · variance`,
so a possible `Math.random` outcome) for the count-style total
`win + loss + draw = 1001` yields the three distinct numbers
`1002, 1003, 1004`; yet after `formatNumber` all four option strings are
`"1k"`, so the emitted count question has duplicate options.  (The
identity permutation is used as the shuffle, which is one possible
outcome of the random sort.) -/
theorem count_question_duplicate_options :
    defaultVariance 1001 = 300
  ∧ gwaRun 1001 3 (defaultVariance 1001) (fun n => 301 + n) 3 = [1002, 1003, 1004]
  ∧ ([1002, 1003, 1004] : List Int).Nodup
  ∧ totalBlitzGamesQuestion "X" 1 600 300 101
      (allOptions (formatNumber 1001) ([1002, 1003, 1004].map formatNumber))
      = some { id := 1,
               question := "How many blitz games has X played on Chess.com?",
               options := ["1k", "1k", "1k", "1k"], correctIndex := 0 }
  ∧ ¬ (["1k", "1k", "1k", "1k"] : List String).Nodup :=
  ⟨by decide, by decide, by decide, by decide, by decide⟩

/-- C5 (refuted as stated): the retry loop of `generateWrongAnswers` is
not bounded for every possible sequence of random draws — the in-range
draw stream that always returns `v` (offset 0) makes the candidate equal
`correct` forever, so no amount of fuel completes the list. -/
theorem generateWrongAnswers_unbounded :
    ∃ draws : Nat → Nat,
      (∀ n, ((draws n : Int) < 2 * defaultVariance 100))
    ∧ ∀ fuel : Nat, (gwaRun 100 3 (defaultVariance 100) draws fuel).length < 3 := by
  refine ⟨fun _ => 50, fun n => ?_, fun fuel => ?_⟩
  · show ((50 : Nat) : Int) < 2 * defaultVariance 100
    decide
  have h : ∀ f : Nat, gwaRun 100 3 (defaultVariance 100) (fun _ => 50) f = [] := by
    intro f
    induction f with
    | zero => rfl
    | succ n ih =>
      show (if 3 ≤ (gwaRun 100 3 (defaultVariance 100) (fun _ => 50) n).length then
          gwaRun 100 3 (defaultVariance 100) (fun _ => 50) n
        else gwaStep 100 (defaultVariance 100)
          (gwaRun 100 3 (defaultVariance 100) (fun _ => 50) n) 50) = []
      rw [ih]
      decide
  rw [h fuel]
  decide

/-- One loop iteration preserves the collected-list invariant. -/
theorem gwaStep_invariant (correct v : Int) (acc : List Int) (r : Nat)
    (h1 : acc.Nodup) (h2 : ∀ x ∈ acc, 0 < x ∧ x ≠ correct) :
    (gwaStep correct v acc r).Nodup
  ∧ (gwaStep correct v acc r).length ≤ acc.length + 1
  ∧ ∀ x ∈ gwaStep correct v acc r, 0 < x ∧ x ≠ correct := by
  have heq : gwaStep correct v acc r
      = if correct + ((r : Int) - v) ≠ correct ∧ correct + ((r : Int) - v) > 0
            ∧ correct + ((r : Int) - v) ∉ acc
        then acc ++ [correct + ((r : Int) - v)] else acc := rfl
  rw [heq]
  split
  · rename_i hcond
    obtain ⟨hne, hpos, hmem⟩ := hcond
    refine ⟨?_, by simp, ?_⟩
    · simp [List.nodup_append, h1, hmem]
    · intro x hx
      rcases List.mem_append.1 hx with hx | hx
      · exact h2 x hx
      · simp only [List.mem_singleton] at hx
        subst hx
        exact ⟨hpos, hne⟩
  · exact ⟨h1, by omega, h2⟩

/-- Every reachable loop state holds at most `count` distinct positive
values, none equal to `correct`. -/
theorem gwaRun_invariant (correct v : Int) (count : Nat) (draws : Nat → Nat) (fuel : Nat) :
    (gwaRun correct count v draws fuel).Nodup
  ∧ (gwaRun correct count v draws fuel).length ≤ count
  ∧ ∀ x ∈ gwaRun correct count v draws fuel, 0 < x ∧ x ≠ correct := by
  induction fuel with
  | zero => simp [gwaRun]
  | succ n ih =>
    obtain ⟨h1, h2, h3⟩ := ih
    have heq : gwaRun correct count v draws (n + 1)
        = if count ≤ (gwaRun correct count v draws n).length then
            gwaRun correct count v draws n
          else gwaStep correct v (gwaRun correct count v draws n) (draws n) := rfl
    rw [heq]
    by_cases hlen : count ≤ (gwaRun correct count v draws n).length
    · rw [if_pos hlen]
      exact ⟨h1, h2, h3⟩
    · rw [if_neg hlen]
      obtain ⟨g1, g2, g3⟩ := gwaStep_invariant correct v _ (draws n) h1 h3
      exact ⟨g1, by omega, g3⟩

/-- C5 (amended): with the default variance and `count = 3`, every
reachable loop state is a list of at most 3 distinct positive integers
none equal to `correct` — so whenever the loop stops it returns exactly
3 such values — and termination does occur for some possible draw
stream: the in-range draws with offsets `1, 2, 3` complete the list in
exactly 3 samples.  (Termination for *every* stream fails, by
`generateWrongAnswers_unbounded`.) -/
theorem generateWrongAnswers_amended (correct : Int) (hc : 0 < correct) :
    (∀ (draws : Nat → Nat) (fuel : Nat),
        (gwaRun correct 3 (defaultVariance correct) draws fuel).Nodup
      ∧ (gwaRun correct 3 (defaultVariance correct) draws fuel).length ≤ 3
      ∧ ∀ x ∈ gwaRun correct 3 (defaultVariance correct) draws fuel,
          0 < x ∧ x ≠ correct)
  ∧ (∀ n, n < 3 →
      (((defaultVariance correct).toNat + 1 + n : Nat) : Int) < 2 * defaultVariance correct)
  ∧ gwaRun correct 3 (defaultVariance correct)
      (fun n => (defaultVariance correct).toNat + 1 + n) 3
      = [correct + 1, correct + 2, correct + 3] := by
  have hv : (50 : ℤ) ≤ defaultVariance correct := le_max_right _ _
  have hvt : ((defaultVariance correct).toNat : ℤ) = defaultVariance correct :=
    Int.toNat_of_nonneg (by omega)
  refine ⟨fun draws fuel =>
    gwaRun_invariant correct (defaultVariance correct) 3 draws fuel, ?_, ?_⟩
  · intro n hn
    push_cast [hvt]
    omega
  · have hstep : ∀ (acc : List Int) (k : Nat),
        gwaStep correct (defaultVariance correct) acc ((defaultVariance correct).toNat + 1 + k)
          = if correct + (1 + (k : Int)) ≠ correct ∧ correct + (1 + (k : Int)) > 0
                ∧ correct + (1 + (k : Int)) ∉ acc
            then acc ++ [correct + (1 + (k : Int))] else acc := by
      intro acc k
      have hoff : (((defaultVariance correct).toNat + 1 + k : Nat) : Int)
          - defaultVariance correct = 1 + (k : Int) := by
        push_cast [hvt]
        ring
      have heq2 : gwaStep correct (defaultVariance correct) acc
            ((defaultVariance correct).toNat + 1 + k)
          = if correct + ((((defaultVariance correct).toNat + 1 + k : Nat) : Int)
                - defaultVariance correct) ≠ correct
              ∧ correct + ((((defaultVariance correct).toNat + 1 + k : Nat) : Int)
                - defaultVariance correct) > 0
              ∧ correct + ((((defaultVariance correct).toNat + 1 + k : Nat) : Int)
                - defaultVariance correct) ∉ acc
            then acc ++ [correct + ((((defaultVariance correct).toNat + 1 + k : Nat) : Int)
                - defaultVariance correct)]
            else acc := rfl
      rw [heq2, hoff]
    have e1 : gwaRun correct 3 (defaultVariance correct)
        (fun n => (defaultVariance correct).toNat + 1 + n) 1 = [correct + 1] := by
      have h0 : gwaRun correct 3 (defaultVariance correct)
          (fun n => (defaultVariance correct).toNat + 1 + n) 1
          = if 3 ≤ ([] : List Int).length then []
            else gwaStep correct (defaultVariance correct) []
              ((defaultVariance correct).toNat + 1 + 0) := rfl
      rw [h0, if_neg (by simp), hstep, if_pos ⟨by omega, by omega, by simp⟩]
      simp
    have e2 : gwaRun correct 3 (defaultVariance correct)
        (fun n => (defaultVariance correct).toNat + 1 + n) 2
        = [correct + 1, correct + 2] := by
      have h0 : gwaRun correct 3 (defaultVariance correct)
          (fun n => (defaultVariance correct).toNat + 1 + n) 2
          = if 3 ≤ (gwaRun correct 3 (defaultVariance correct)
              (fun n => (defaultVariance correct).toNat + 1 + n) 1).length
            then gwaRun correct 3 (defaultVariance correct)
              (fun n => (defaultVariance correct).toNat + 1 + n) 1
            else gwaStep correct (defaultVariance correct)
              (gwaRun correct 3 (defaultVariance correct)
                (fun n => (defaultVariance correct).toNat + 1 + n) 1)
              ((defaultVariance correct).toNat + 1 + 1) := rfl
      rw [h0, e1, if_neg (by simp), hstep,
        if_pos ⟨by omega, by omega, by simp⟩]
      norm_num
    have e3 : gwaRun correct 3 (defaultVariance correct)
        (fun n => (defaultVariance correct).toNat + 1 + n) 3
        = [correct + 1, correct + 2, correct + 3] := by
      have h0 : gwaRun correct 3 (defaultVariance correct)
          (fun n => (defaultVariance correct).toNat + 1 + n) 3
          = if 3 ≤ (gwaRun correct 3 (defaultVariance correct)
              (fun n => (defaultVariance correct).toNat + 1 + n) 2).length
            then gwaRun correct 3 (defaultVariance correct)
              (fun n => (defaultVariance correct).toNat + 1 + n) 2
            else gwaStep correct (defaultVariance correct)
              (gwaRun correct 3 (defaultVariance correct)
                (fun n => (defaultVariance correct).toNat + 1 + n) 2)
              ((defaultVariance correct).toNat + 1 + 2) := rfl
      rw [h0, e2, if_neg (by simp), hstep,
        if_pos ⟨by omega, by omega, by simp⟩]
      norm_num
    exact e3

/-- Witness for the amended C5 at `correct = 100`: the offsets-`1,2,3`
stream terminates after exactly three samples with three distinct
positive wrong answers. -/
theorem generateWrongAnswers_amended_witness :
    gwaRun 100 3 (defaultVariance 100) (fun n => (defaultVariance 100).toNat + 1 + n) 3
      = [101, 102, 103] := by
  have h := (generateWrongAnswers_amended 100 (by decide)).2.2
  rw [h]
  decide

end ChessTrivia
